import Mathlib

/-!
Verification development for the frontend caching repository.

The JavaScript sources are shallowly embedded:
  * `CacheInvalidationManager` (src/cache-invalidator.js) — invalidation
    strategies, dependency registry, tiered `setCache`.
  * `HybridCache` (src/unnamed/part_001, "API Cache.js") — memory tier with
    TTL stamps, lazy expiry on read, priority-weighted eviction.
  * `IntelligentAPICache` (src/unnamed/part_001) — request deduplication,
    circuit-breaker wiring, stale-data fallback and cache-key generation.

JavaScript machine integers appearing in `hashString` are modelled as `Int`
with an explicit wrap to the signed 32-bit range; `x || d` default-taking on
numbers is modelled by `falsyD`, which maps both `none` (absent) and `some 0`
(falsy) to the default, exactly as the source does.
-/

/-- Models the JavaScript idiom `x || d` for an optional numeric option:
both an absent value and the falsy number 0 select the default. -/
def falsyD : Option Nat → Nat → Nat
  | none, d => d
  | some 0, d => d
  | some n, _ => n

/-! ## CacheInvalidationManager (src/cache-invalidator.js) -/

/-- A cache entry as built by `CacheInvalidationManager.setCache`
(src/cache-invalidator.js lines 136-156): payload, write timestamp, writer
version, dependency snapshot (dependency key to version at write time),
access counter and serialized size.  The `metadata` field and the external
`TextEncoder` size measurement are not observed by any claim and are kept
as a plain `Nat` size field. -/
structure CEntry where
  data : Nat
  timestamp : Nat
  version : String
  dependencies : List (String × Nat)
  accessCount : Nat
  size : Nat
deriving DecidableEq, Repr

/-- Options object of the invalidation calls; `Option` encodes a field being
absent (JavaScript `undefined`). -/
structure InvOptions where
  maxAge : Option Nat
  currentVersion : Option String
  dependencies : Option (List String)
  maxSize : Option Nat
  minHits : Option Nat
deriving DecidableEq, Repr

/-- The manager state used by the strategy predicates: the dependency
registry `this.dependencies` (key to version) and the memory cache whose
entry sizes feed `getTotalCacheSize`. -/
structure InvManager where
  dependencies : List (String × Nat)
  memoryCache : List (String × CEntry)
deriving DecidableEq, Repr

/-- Action tag of a registered invalidation strategy. -/
inductive SAction where
  | refresh
  | clear
  | stale
deriving DecidableEq, Repr

/-- Tag naming one of the four built-in strategy predicates. -/
inductive StratTag where
  | timeBased
  | versionBased
  | dependencyBased
  | usageBased
deriving DecidableEq, Repr

/-- One registered strategy: its predicate tag and its action. -/
structure StrategyCfg where
  tag : StratTag
  action : SAction
deriving DecidableEq, Repr

/-- The registry built by `setupStrategies` (src/cache-invalidator.js lines
13-46), looked up by name; unregistered names yield `none`. -/
def lookupStrategy (name : String) : Option StrategyCfg :=
  if name = "time-based" then some ⟨.timeBased, .refresh⟩
  else if name = "version-based" then some ⟨.versionBased, .clear⟩
  else if name = "dependency-based" then some ⟨.dependencyBased, .clear⟩
  else if name = "usage-based" then some ⟨.usageBased, .clear⟩
  else none

/-- The time-based predicate (src/cache-invalidator.js lines 15-18):
`Date.now() - cacheEntry.timestamp > (options.maxAge || 3600000)`.
The subtraction is JavaScript number subtraction, hence `Int`. -/
def timeBasedCheck (e : CEntry) (maxAge : Option Nat) (now : Nat) : Bool :=
  decide ((now : Int) - (e.timestamp : Int) > (falsyD maxAge 3600000 : Int))

/-- The version-based predicate (lines 23-25):
`cacheEntry.version !== options.currentVersion`; an absent
`currentVersion` (`undefined`) is strictly unequal to any string. -/
def versionBasedCheck (e : CEntry) (currentVersion : Option String) : Bool :=
  match currentVersion with
  | none => true
  | some v => decide (e.version ≠ v)

/-- `hasDependencyChanged` (src/cache-invalidator.js lines 129-134):
`currentDep && currentDep.version !== cachedDep?.version`.  No current
DependencyRecord makes the conjunction falsy; an absent snapshot entry
(`cachedDep?.version` is `undefined`) differs from any number. -/
def hasDependencyChanged (registry : List (String × Nat)) (dependencyKey : String)
    (cachedDependencies : List (String × Nat)) : Bool :=
  match List.lookup dependencyKey registry with
  | none => false
  | some cv =>
    match List.lookup dependencyKey cachedDependencies with
    | none => true
    | some sv => decide (cv ≠ sv)

/-- The dependency-based predicate body (lines 30-33):
`options.dependencies.some(dep => hasDependencyChanged(dep, entry.dependencies))`. -/
def dependencyCheck (registry : List (String × Nat)) (deps : List String)
    (snapshot : List (String × Nat)) : Bool :=
  deps.any fun d => hasDependencyChanged registry d snapshot

/-- `getTotalCacheSize` (lines 182-188): sum of `entry.size` over the
manager's memory cache. -/
def getTotalCacheSize (m : List (String × CEntry)) : Nat :=
  m.foldl (fun total p => total + p.2.size) 0

/-- The usage-based predicate (lines 39-42) with destructuring defaults
`{ maxSize = 100, minHits = 1 }` — these apply only to `undefined`,
not to other falsy numbers, hence `Option.getD`. -/
def usageBasedCheck (mgr : InvManager) (e : CEntry) (maxSize minHits : Option Nat) : Bool :=
  decide (e.accessCount < minHits.getD 1) &&
    decide (getTotalCacheSize mgr.memoryCache > maxSize.getD 100)

/-- Dispatch of the four registered predicates over an entry.  The
dependency-based closure dereferences `options.dependencies`; when that
field is absent the JavaScript call would throw a `TypeError`, modelled as
`Except.error`. -/
def runCheck (tag : StratTag) (mgr : InvManager) (e : CEntry) (opts : InvOptions)
    (now : Nat) : Except String Bool :=
  match tag with
  | .timeBased => .ok (timeBasedCheck e opts.maxAge now)
  | .versionBased => .ok (versionBasedCheck e opts.currentVersion)
  | .dependencyBased =>
    match opts.dependencies with
    | none => .error "TypeError: options.dependencies is undefined"
    | some deps => .ok (dependencyCheck mgr.dependencies deps e.dependencies)
  | .usageBased => .ok (usageBasedCheck mgr e opts.maxSize opts.minHits)

/-- `invalidateCache` (src/cache-invalidator.js lines 48-76) restricted to
its decision result: the entry for the key is looked up first and a missing
entry returns `false` before the strategy registry is ever consulted; an
unregistered strategy name then throws; otherwise the predicate result is
returned (the action switch only calls the external per-action helpers and
does not change the returned boolean). -/
def invalidateCache (mgr : InvManager) (entry : Option CEntry) (strategy : String)
    (opts : InvOptions) (now : Nat) : Except String Bool :=
  match entry with
  | none => .ok false
  | some e =>
    match lookupStrategy strategy with
    | none => .error ("Unknown invalidation strategy: " ++ strategy)
    | some cfg => runCheck cfg.tag mgr e opts now

/-! ## HybridCache (src/unnamed/part_001, lines 78-241) -/

/-- A memory-tier item as written by `setToMemory` (lines 162-168):
value, absolute expiry stamp, last-access stamp and priority weight.
The `size` field comes from the external `Blob` measurement
(`calculateSize`, line 211) and is not observed by any claim. -/
structure MemEntry where
  value : Nat
  expiry : Nat
  lastAccessed : Nat
  priority : Nat
deriving DecidableEq, Repr

/-- Hit/miss counters (`this.stats`, lines 85-90). -/
structure HCStats where
  hits : Nat
  misses : Nat
  memoryHits : Nat
  redisHits : Nat
deriving DecidableEq, Repr

/-- `HybridCache` state.  The memory cache is the `Map` in key-insertion
order; `redisConfigured` records whether `options.redisClient` was given.
The external redis client itself is kept outside the state: its responses
enter the model as explicit parameters. -/
structure HCState where
  memoryCache : List (String × MemEntry)
  hitCounter : List (String × Nat)
  redisConfigured : Bool
  defaultTTL : Nat
  memoryLimit : Nat
  stats : HCStats
deriving DecidableEq, Repr

/-- The `HybridCache` constructor (lines 79-91):
`defaultTTL = options.defaultTTL || 300000` and
`memoryLimit = options.memoryLimit || 100`, so falsy configured values
(absent or zero) are replaced by the defaults. -/
def hybridInit (defaultTTLOpt memoryLimitOpt : Option Nat) (redisConfigured : Bool) :
    HCState :=
  { memoryCache := []
    hitCounter := []
    redisConfigured
    defaultTTL := falsyD defaultTTLOpt 300000
    memoryLimit := falsyD memoryLimitOpt 100
    stats := ⟨0, 0, 0, 0⟩ }

/-- `Map.set` semantics on the insertion-ordered association list: an
existing key keeps its position and gets the new value, a new key is
appended at the end. -/
def mapSet (m : List (String × MemEntry)) (k : String) (e : MemEntry) :
    List (String × MemEntry) :=
  if k ∈ m.map Prod.fst then
    m.map fun p => if p.1 = k then (p.1, e) else p
  else m ++ [(k, e)]

/-- `getFromMemory` (lines 143-155): a missing item is a miss; an item with
`Date.now() > item.expiry` is deleted from the map and reported as a miss;
otherwise `lastAccessed` is refreshed in place and the value returned. -/
def getFromMemory (st : HCState) (key : String) (now : Nat) :
    Option Nat × HCState :=
  match List.lookup key st.memoryCache with
  | none => (none, st)
  | some item =>
    if item.expiry < now then
      (none, { st with memoryCache := st.memoryCache.filter fun p => p.1 ≠ key })
    else
      (some item.value,
        { st with memoryCache := st.memoryCache.map fun p =>
            if p.1 = key then (p.1, { p.2 with lastAccessed := now }) else p })

/-- `recordHit` (lines 206-209). -/
def recordHit (c : List (String × Nat)) (key : String) : List (String × Nat) :=
  let count := (List.lookup key c).getD 0
  if key ∈ c.map Prod.fst then
    c.map fun p => if p.1 = key then (p.1, count + 1) else p
  else c ++ [(key, count + 1)]

/-- `get` (lines 93-124) for an instance without a redis client (the redis
branch at line 106 is guarded by `this.redisClient` and never taken for the
configurations the claims exercise): a memory hit bumps `hits`,
`memoryHits` and the hit counter; everything else is a miss.  `skipMemory`
mirrors the option of the same name. -/
def hybridGet (st : HCState) (key : String) (skipMemory : Bool) (now : Nat) :
    Option Nat × HCState :=
  if skipMemory then
    (none, { st with stats := { st.stats with misses := st.stats.misses + 1 } })
  else
    match getFromMemory st key now with
    | (some v, st1) =>
      (some v,
        { st1 with
          stats := { st1.stats with
            hits := st1.stats.hits + 1
            memoryHits := st1.stats.memoryHits + 1 }
          hitCounter := recordHit st1.hitCounter key })
    | (none, st1) =>
      (none, { st1 with stats := { st1.stats with misses := st1.stats.misses + 1 } })

/-- Eviction score (lines 195-196): `lastAccessed * priority`; lower scores
are evicted first. -/
def score (e : MemEntry) : Nat :=
  e.lastAccessed * e.priority

/-- Comparison used to model `entries.sort((a, b) => scoreA - scoreB)` on
index-tagged entries.  JavaScript `Array.prototype.sort` is stable and the
entries come out of the `Map` in insertion order, so sorting by the pair
(score, original position) in lexicographic order reproduces the sorted
array exactly. -/
def evictLe (a b : Nat × (String × MemEntry)) : Prop :=
  score a.2.2 < score b.2.2 ∨ (score a.2.2 = score b.2.2 ∧ a.1 ≤ b.1)

instance : DecidableRel evictLe := fun a b => by
  unfold evictLe; infer_instance

instance : IsTotal (Nat × (String × MemEntry)) evictLe where
  total a b := by
    unfold evictLe
    rcases Nat.lt_trichotomy (score a.2.2) (score b.2.2) with h | h | h
    · exact Or.inl (Or.inl h)
    · rcases Nat.le_total a.1 b.1 with h2 | h2
      · exact Or.inl (Or.inr ⟨h, h2⟩)
      · exact Or.inr (Or.inr ⟨h.symm, h2⟩)
    · exact Or.inr (Or.inl h)

instance : IsTrans (Nat × (String × MemEntry)) evictLe where
  trans a b c hab hbc := by
    unfold evictLe at *
    rcases hab with h1 | ⟨h1, h1i⟩ <;> rcases hbc with h2 | ⟨h2, h2i⟩
    · exact Or.inl (h1.trans h2)
    · exact Or.inl (h2 ▸ h1)
    · exact Or.inl (h1 ▸ h2)
    · exact Or.inr ⟨h1.trans h2, h1i.trans h2i⟩

/-- The number of entries `evictFromMemory` deletes (line 200):
`Math.max(1, Math.floor(this.memoryLimit * 0.1))`.  For every entry count
that a `Map` can reach, the binary floating-point product `limit * 0.1`
floors to `limit / 10` (the real product exceeds `limit / 10` by less than
half an ulp, and for exact multiples of ten rounding never falls below the
integer), so natural division is the faithful model. -/
def evictCount (limit : Nat) : Nat :=
  max 1 (limit / 10)

/-- `evictFromMemory` (lines 191-204): snapshot the map in insertion order,
stably sort ascending by score, and delete the keys of the first
`evictCount` entries from the map. -/
def evictFromMemory (m : List (String × MemEntry)) (limit : Nat) :
    List (String × MemEntry) :=
  let sorted := List.insertionSort evictLe m.enum
  let evictKeys := (sorted.take (evictCount limit)).map fun q => q.2.1
  m.filter fun p => decide (p.1 ∉ evictKeys)

/-- `setToMemory` (lines 157-169): evict when the map already holds at
least `memoryLimit` entries, then insert the fresh item stamped with
`expiry = Date.now() + ttl` and `lastAccessed = Date.now()`. -/
def setToMemory (st : HCState) (key : String) (value ttl priority now : Nat) :
    HCState :=
  let cache :=
    if st.memoryCache.length ≥ st.memoryLimit then
      evictFromMemory st.memoryCache st.memoryLimit
    else st.memoryCache
  { st with memoryCache := mapSet cache key ⟨value, now + ttl, now, priority⟩ }

/-- `set` (lines 126-141): `ttl = options.ttl || this.defaultTTL`,
`priority = options.priority || 1`, always write the memory tier, then
attempt the redis write when a client is configured.  A redis rejection is
caught and only logged (`console.warn`, line 136): `set` still returns
`true`.  `redisOk` is the external backend's behaviour; the returned flags
are (new state, value returned by `set`, whether the redis write landed). -/
def hybridSet (st : HCState) (key : String) (value : Nat)
    (ttlOpt priorityOpt : Option Nat) (now : Nat) (redisOk : Bool) :
    HCState × Bool × Bool :=
  let ttl := falsyD ttlOpt st.defaultTTL
  let priority := falsyD priorityOpt 1
  let st1 := setToMemory st key value ttl priority now
  if st.redisConfigured then
    if redisOk then (st1, true, true) else (st1, true, false)
  else (st1, true, false)

/-- Guard of the eviction trigger inside `setToMemory` (line 158):
`this.memoryCache.size >= this.memoryLimit`. -/
def setTriggersEviction (st : HCState) : Bool :=
  st.memoryCache.length ≥ st.memoryLimit

/-! ## IntelligentAPICache: cache-key generation (src/unnamed/part_001,
lines 331-365) -/

/-- Wrap an integer into the signed 32-bit range, the effect of the
JavaScript `ToInt32` coercion performed by the bitwise operators. -/
def toInt32 (n : Int) : Int :=
  (n + 2 ^ 31) % 2 ^ 32 - 2 ^ 31

/-- One round of `hashString` (lines 359-362):
`hash = ((hash << 5) - hash) + charCode; hash = hash & hash`.
`hash << 5` coerces to int32, the subtraction and addition are exact, and
`hash & hash` coerces the result back to int32. -/
def hashStep (h : Int) (c : Nat) : Int :=
  toInt32 (toInt32 (h * 32) - h + c)

/-- Digit characters of `Number.prototype.toString(36)`. -/
def digitChar36 (d : Nat) : Char :=
  if d < 10 then Char.ofNat (48 + d) else Char.ofNat (97 + (d - 10))

/-- Base-36 digits of a natural number, most significant first; the fuel
argument keeps the recursion structural so the kernel can evaluate it. -/
def base36Aux : Nat → Nat → List Char
  | 0, _ => []
  | fuel + 1, n =>
    if n < 36 then [digitChar36 n]
    else base36Aux fuel (n / 36) ++ [digitChar36 (n % 36)]

/-- `n.toString(36)` for the numbers `hashString` produces: eight digits of
fuel cover the whole signed 32-bit magnitude range (`36 ^ 8 > 2 ^ 32`). -/
def base36 (n : Nat) : String :=
  ⟨base36Aux 8 n⟩

/-- `hashString` (lines 357-365): fold the 32-bit hash over the UTF-16 code
units (our inputs are ASCII, where code units and code points agree) and
render it in base 36, with a leading minus sign when negative. -/
def hashString (s : String) : String :=
  let h := s.data.foldl (fun acc c => hashStep acc c.toNat) 0
  if h < 0 then "-" ++ base36 h.natAbs else base36 h.natAbs

/-- JSON string escaping for the characters that can occur in our inputs
(backslash and double quote). -/
def jsonEscape (s : String) : String :=
  ⟨s.data.foldr (fun c acc =>
    if c = '"' ∨ c = '\\' then '\\' :: c :: acc else c :: acc) []⟩

/-- `JSON.stringify` of a string value. -/
def jsonStr (s : String) : String :=
  "\"" ++ jsonEscape s ++ "\""

/-- `JSON.stringify` of an object with string values, fields in insertion
order. -/
def jsonObjStr (fields : List (String × String)) : String :=
  "\x7b" ++ String.intercalate "," (fields.map fun p => jsonStr p.1 ++ ":" ++ p.2)
    ++ "\x7d"

/-- The sensitive-header denylist of `sanitizeHeaders` (line 345):
`['authorization', 'cookie', 'x-api-key']`. -/
def sensitiveHeaders : List String :=
  ["authorization", "cookie", "x-api-key"]

/-- `sanitizeHeaders` (lines 344-355): copy the header object and replace
the value of each denylisted header by the marker `'***'` — but only when
the present value is truthy, i.e. a non-empty string
(`if (sanitized[header])`). -/
def sanitizeHeaders (headers : List (String × String)) : List (String × String) :=
  headers.map fun p =>
    if p.1 ∈ sensitiveHeaders ∧ p.2 ≠ "" then (p.1, "***") else p

/-- A request descriptor: the url plus the `method`, `headers` and `body`
options read by `generateCacheKey` (line 332), with their defaults. -/
structure ReqDescriptor where
  url : String
  method : String
  headers : List (String × String)
  body : Option String
deriving DecidableEq, Repr

/-- `generateCacheKey` (lines 331-342): serialize
`{url, method, headers: sanitized, body: body ? hash(stringify(body)) : null}`
in field-insertion order and hash it, prefixed with `api:`.  A falsy body
(absent or the empty string) contributes JSON `null`. -/
def generateCacheKey (r : ReqDescriptor) : String :=
  let bodyField :=
    match r.body with
    | none => "null"
    | some b => if b = "" then "null" else jsonStr (hashString (jsonStr b))
  let keyData := jsonObjStr
    [("url", jsonStr r.url),
     ("method", jsonStr r.method),
     ("headers", jsonObjStr ((sanitizeHeaders r.headers).map fun p => (p.1, jsonStr p.2))),
     ("body", bodyField)]
  "api:" ++ hashString keyData

/-! ## IntelligentAPICache: circuit breaker wiring (src/unnamed/part_001,
lines 244-315) -/

/-- Circuit breaker states. -/
inductive BState where
  | closed
  | open
  | halfOpen
deriving DecidableEq, Repr

/-- Modelled from the spec: the `CircuitBreaker` class instantiated at
src/unnamed/part_001 line 248 is not part of the sources, only its call
sites `canRequest` (line 281) and `recordFailure` (line 299) are.  Its
per-origin record follows spec section 4.3: state, consecutive failure
count, and the time the breaker opened. -/
structure Breaker where
  state : BState
  consecutiveFailures : Nat
  openedAt : Nat
deriving DecidableEq, Repr

/-- A fresh (closed) breaker record for an origin. -/
def breakerInit : Breaker :=
  ⟨.closed, 0, 0⟩

/-- Modelled from the spec: `canRequest` per section 4.3 — `closed` and
`half-open` allow the call; `open` fails fast while
`now - openedAt < cooldown` (60 s) and otherwise transitions to
`half-open`, allowing one trial call.  Returns (allowed, updated record). -/
def canRequest (b : Breaker) (now : Nat) : Bool × Breaker :=
  match b.state with
  | .closed => (true, b)
  | .halfOpen => (true, b)
  | .open =>
    if now - b.openedAt < 60000 then (false, b)
    else (true, { b with state := .halfOpen })

/-- Modelled from the spec: `recordFailure` per section 4.3 — increment
`consecutiveFailures`; reaching the threshold 5 while closed opens the
breaker with `openedAt = now`; a failure while half-open reopens it. -/
def recordFailure (b : Breaker) (now : Nat) : Breaker :=
  let cf := b.consecutiveFailures + 1
  match b.state with
  | .halfOpen => ⟨.open, cf, now⟩
  | .closed =>
    if cf ≥ 5 then ⟨.open, cf, now⟩ else ⟨.closed, cf, b.openedAt⟩
  | .open => { b with consecutiveFailures := cf }

/-- Decidable equality of settled fetch outcomes. -/
def exceptDecEq (a b : Except String Nat) : Decidable (a = b) :=
  match a, b with
  | .ok x, .ok y =>
    match decEq x y with
    | isTrue h => isTrue (h ▸ rfl)
    | isFalse h => isFalse fun hh => h (Except.ok.inj hh)
  | .error x, .error y =>
    match decEq x y with
    | isTrue h => isTrue (h ▸ rfl)
    | isFalse h => isFalse fun hh => h (Except.error.inj hh)
  | .ok _, .error _ => isFalse fun hh => Except.noConfusion hh
  | .error _, .ok _ => isFalse fun hh => Except.noConfusion hh

instance : DecidableEq (Except String Nat) :=
  exceptDecEq

/-- Outcome of one `cachedFetch` attempt as far as the breaker can see. -/
structure FetchAttempt where
  outcome : Except String Nat
  breaker : Breaker
  originInvoked : Bool
deriving DecidableEq, Repr

/-- The breaker-relevant skeleton of `cachedFetch` on a cache miss
(src/unnamed/part_001 lines 280-314): consult `canRequest`; a denied
request throws `'Circuit breaker open'`, which the surrounding `catch`
block feeds to `recordFailure` like any other error; an allowed request
runs the origin (`originRes` is the external origin's outcome) and only a
failure is reported to the breaker — the success path (lines 291-297)
never touches `this.circuitBreaker`. -/
def fetchStep (b : Breaker) (now : Nat) (originRes : Except String Nat) :
    FetchAttempt :=
  let allowed := canRequest b now
  if allowed.1 then
    match originRes with
    | .ok v => ⟨.ok v, allowed.2, true⟩
    | .error e => ⟨.error e, recordFailure allowed.2 now, true⟩
  else
    ⟨.error "Circuit breaker open", recordFailure allowed.2 now, false⟩

/-- The breaker after `n` consecutive failing origin calls at time `t`,
starting from a fresh record. -/
def afterFailures (n : Nat) (t : Nat) : Breaker :=
  (List.replicate n ()).foldl (fun b _ => (fetchStep b t (.error "HTTP 500")).breaker)
    breakerInit

/-! ## IntelligentAPICache: stale fallback (src/unnamed/part_001,
lines 298-315) -/

/-- Result of the failure path of `cachedFetch`: the settled outcome, the
memory tier after the fallback read (the read deletes expired entries), and
the outcome delivered to every queued waiter by `processQueue`
(lines 317-329), which hands the same value or error to all of them. -/
structure FailureRes where
  outcome : Except String Nat
  st : HCState
  released : List (Nat × Except String Nat)
deriving DecidableEq, Repr

/-- The `catch` block of `cachedFetch` (lines 298-311) minus the breaker
bookkeeping: with `fallback === 'stale'` the last value is re-read through
`this.cache.get(cacheKey, { skipRedis: true })` — which is `getFromMemory`
plus stats for the redis-less configurations modelled here — and a truthy
stale value is returned to the caller and all waiters; otherwise the error
is what everyone gets. -/
def onOriginFailure (fallback : Option String) (st : HCState) (key : String)
    (now : Nat) (err : String) (waiters : List Nat) : FailureRes :=
  if fallback = some "stale" then
    match hybridGet st key false now with
    | (some v, st1) =>
      if v ≠ 0 then ⟨.ok v, st1, waiters.map fun w => (w, .ok v)⟩
      else ⟨.error err, st1, waiters.map fun w => (w, .error err)⟩
    | (none, st1) => ⟨.error err, st1, waiters.map fun w => (w, .error err)⟩
  else ⟨.error err, st, waiters.map fun w => (w, .error err)⟩

/-! ## IntelligentAPICache: deduplication (src/unnamed/part_001,
lines 252-329) -/

/-- Phase of one logical caller inside `cachedFetch`: not yet entered,
queued in `this.requestQueue`, owner of the in-flight origin call
(`this.pendingRequests` claim), or settled with an outcome. -/
inductive CPhase where
  | idle
  | waiting
  | fetching
  | done (o : Except String Nat)
deriving DecidableEq, Repr

/-- Shared coordinator state for one cache key and two concurrent callers:
whether `this.pendingRequests` holds the key, the `this.requestQueue` entry
(waiters in arrival order), how often the origin has been invoked, the
cached value for the key, and both callers' phases. -/
structure DedupState where
  pending : Bool
  queue : List Bool
  originCalls : Nat
  cacheVal : Option Nat
  ph0 : CPhase
  ph1 : CPhase
deriving DecidableEq, Repr

/-- Phase of caller `i`. -/
def phase (s : DedupState) (i : Bool) : CPhase :=
  if i then s.ph1 else s.ph0

/-- Replace the phase of caller `i`. -/
def setPhase (s : DedupState) (i : Bool) (p : CPhase) : DedupState :=
  if i then { s with ph1 := p } else { s with ph0 := p }

/-- `processQueue` (lines 317-329): resolve or reject every queued waiter
with the same settled outcome. -/
def releaseQueue (s : DedupState) (o : Except String Nat) : DedupState :=
  s.queue.foldl (fun t j => setPhase t j (.done o)) s

/-- One atomic step of caller `i` in `cachedFetch` with `deduplicate` left
at its default `true`, `forceRefresh` and `validate` absent and `fallback`
absent.  The suspension points of the miss path are the genuine
asynchronous boundaries: the origin `fetch` and its settlement.  The
synchronous stretch from observing the cache result through either queueing
(lines 270-276) or claiming `this.pendingRequests` and starting the fetch
(lines 278-285) is one step, as the JavaScript event loop runs it without
yielding to the other caller (the memory tier answers synchronously and
microtasks run to completion in FIFO order).  A caller that finds a truthy
cached value returns it immediately (lines 263-268).  The settlement step
(lines 291-314) writes the cache, releases the queue identically and clears
the pending claim in its `finally`. -/
def dedupStep (originRes : Except String Nat) (s : DedupState) (i : Bool) :
    DedupState :=
  match phase s i with
  | .idle =>
    match s.cacheVal with
    | some w =>
      if w ≠ 0 then setPhase s i (.done (.ok w))
      else if s.pending then
        { setPhase s i .waiting with queue := s.queue ++ [i] }
      else
        { setPhase s i .fetching with pending := true, originCalls := s.originCalls + 1 }
    | none =>
      if s.pending then
        { setPhase s i .waiting with queue := s.queue ++ [i] }
      else
        { setPhase s i .fetching with pending := true, originCalls := s.originCalls + 1 }
  | .fetching =>
    match originRes with
    | .ok v =>
      { releaseQueue (setPhase s i (.done (.ok v))) (.ok v) with
          queue := [], pending := false, cacheVal := some v }
    | .error e =>
      { releaseQueue (setPhase s i (.done (.error e))) (.error e) with
          queue := [], pending := false }
  | .waiting => s
  | .done _ => s

/-- Cold-start coordinator state: nothing cached, nothing pending. -/
def dedupInit : DedupState :=
  ⟨false, [], 0, none, .idle, .idle⟩

/-- Run a schedule (a list of caller identities, each receiving one atomic
step) from the cold-start state. -/
def dedupRun (originRes : Except String Nat) (sched : List Bool) : DedupState :=
  sched.foldl (dedupStep originRes) dedupInit

/-- Number of callers currently holding the in-flight claim: the count of
`PendingFetch`-owning callers for the key. -/
def leaders (s : DedupState) : Nat :=
  (if s.ph0 = .fetching then 1 else 0) + (if s.ph1 = .fetching then 1 else 0)

/-! ## CacheInvalidationManager.setCache (src/cache-invalidator.js,
lines 136-156) -/

/-- Which storage tiers a `setCache` call has written. -/
structure TierWrites where
  memory : Bool
  localStorage : Bool
  idb : Bool
deriving DecidableEq, Repr

/-- Result of `setCache`: the tiers written before the call settled and the
settled outcome of the returned promise. -/
structure SetCacheRes where
  written : TierWrites
  outcome : Except String Unit
deriving Repr

/-- `setCache` (src/cache-invalidator.js lines 136-156), with the external
storage backends' behaviour passed in as `lsOk` / `idbOk`: the in-memory
write happens first and only when `options.priority === 'high'`; the
localStorage write is awaited unconditionally; the IndexedDB write is
awaited only when `options.persistent` is set.  No write is wrapped in any
`try`/`catch`, so a rejected backend write rejects the whole `setCache`
and skips the writes after it. -/
def setCache (priorityHigh persistent : Bool) (lsOk idbOk : Bool) : SetCacheRes :=
  let memory := priorityHigh
  if lsOk then
    if persistent then
      if idbOk then
        ⟨⟨memory, true, true⟩, .ok ()⟩
      else
        ⟨⟨memory, true, false⟩, .error "StorageBackendError: setToIDB rejected"⟩
    else
      ⟨⟨memory, true, false⟩, .ok ()⟩
  else
    ⟨⟨memory, false, false⟩, .error "StorageBackendError: setToLocalStorage rejected"⟩

/-! ## General lemmas about the association-list operations -/

/-- Looking up the key of the head pair finds its value. -/
theorem lookup_cons_self {β : Type} (a : String) (b : β) (es : List (String × β)) :
    List.lookup a ((a, b) :: es) = some b := by
  simp [List.lookup_cons]

/-- A head pair with a different key is skipped by lookup. -/
theorem lookup_cons_ne {β : Type} {a k : String} (b : β) (es : List (String × β))
    (h : a ≠ k) : List.lookup a ((k, b) :: es) = List.lookup a es := by
  have hb : (a == k) = false := beq_eq_false_iff_ne.mpr h
  simp [List.lookup_cons, hb]

/-- `mapSet` on a list already holding the key overwrites it in place. -/
theorem lookup_mapSet_mem (m : List (String × MemEntry)) (k : String) (e : MemEntry)
    (hmem : k ∈ m.map Prod.fst) :
    List.lookup k (m.map fun p => if p.1 = k then (p.1, e) else p) = some e := by
  induction m with
  | nil => simp at hmem
  | cons p rest ih =>
    obtain ⟨a, b⟩ := p
    by_cases hp : a = k
    · subst hp
      rw [List.map_cons, if_pos rfl]
      exact lookup_cons_self a e _
    · rw [List.map_cons, if_neg (by simpa using hp)]
      rw [lookup_cons_ne b _ fun hh => hp hh.symm]
      refine ih ?_
      rcases List.mem_map.mp hmem with ⟨q, hq, hqk⟩
      rcases List.mem_cons.mp hq with hq | hq
      · exact absurd (by rw [hq] at hqk; exact hqk) hp
      · exact List.mem_map.mpr ⟨q, hq, hqk⟩

/-- Appending a fresh pair at the end is found by lookup when the key was
absent before. -/
theorem lookup_append_fresh (m : List (String × MemEntry)) (k : String) (e : MemEntry)
    (hmem : k ∉ m.map Prod.fst) :
    List.lookup k (m ++ [(k, e)]) = some e := by
  induction m with
  | nil => exact lookup_cons_self k e []
  | cons p rest ih =>
    obtain ⟨a, b⟩ := p
    have ha : k ≠ a := by
      intro hh
      exact hmem (List.mem_map.mpr ⟨(a, b), List.mem_cons_self _ _, hh.symm⟩)
    rw [List.cons_append, lookup_cons_ne b _ ha]
    refine ih fun hh => ?_
    rcases List.mem_map.mp hh with ⟨q, hq, hqk⟩
    exact hmem (List.mem_map.mpr ⟨q, List.mem_cons_of_mem _ hq, hqk⟩)

/-- After `mapSet m k e`, looking up `k` finds exactly `e`. -/
theorem lookup_mapSet (m : List (String × MemEntry)) (k : String) (e : MemEntry) :
    List.lookup k (mapSet m k e) = some e := by
  unfold mapSet
  split
  · exact lookup_mapSet_mem m k e (by assumption)
  · exact lookup_append_fresh m k e (by assumption)

/-- Deleting a key from the map makes subsequent lookups of it miss. -/
theorem lookup_filter_ne (m : List (String × MemEntry)) (k : String) :
    List.lookup k (m.filter fun p => p.1 ≠ k) = none := by
  induction m with
  | nil => rfl
  | cons p rest ih =>
    obtain ⟨a, b⟩ := p
    by_cases hp : a = k
    · rw [List.filter_cons, if_neg (by simpa using hp)]
      exact ih
    · rw [List.filter_cons, if_pos (by simpa using hp)]
      rw [lookup_cons_ne b _ fun hh => hp hh.symm]
      exact ih

/-! ## Claim C5: time-based invalidation threshold -/

/-- C5 (amended): the time-based strategy triggers strictly after the
effective age bound — it returns true iff `now > createdAt + m` for a
supplied nonzero `maxAge = m`, not iff `now ≥ createdAt + m`; and because
the source takes the default through `options.maxAge || 3600000`, a
supplied `maxAge = 0` is falsy and behaves exactly like an absent one, with
the default 3,600,000 ms bound applying in both cases.  The registered
action is `refresh`.  The first conjunct covers every supplied `m`, zero
included, through the effective bound. -/
theorem timeBased_strict_threshold (e : CEntry) (m now : Nat) :
    (timeBasedCheck e (some m) now = true ↔
      now > e.timestamp + (if m = 0 then 3600000 else m)) ∧
    (timeBasedCheck e none now = true ↔ now > e.timestamp + 3600000) ∧
    timeBasedCheck e (some 0) now = timeBasedCheck e none now ∧
    lookupStrategy "time-based" = some ⟨.timeBased, .refresh⟩ := by
  refine ⟨?_, ?_, rfl, rfl⟩
  · cases m with
    | zero =>
      rw [if_pos rfl]
      simp only [timeBasedCheck, falsyD, decide_eq_true_eq]
      omega
    | succ j =>
      rw [if_neg (Nat.succ_ne_zero j)]
      simp only [timeBasedCheck, falsyD, decide_eq_true_eq]
      omega
  · simp only [timeBasedCheck, falsyD, decide_eq_true_eq]
    omega

/-- Witness for C5 at concrete inputs: with `createdAt = 0`, `maxAge = 5`,
the check triggers at `now = 6`; with the falsy `maxAge = 0` the check
coincides with the absent-`maxAge` default. -/
theorem timeBased_strict_threshold_witness :
    (timeBasedCheck ⟨0, 0, "1.0.0", [], 0, 0⟩ (some 5) 6 = true ↔ 6 > 0 + 5) ∧
    (timeBasedCheck ⟨0, 0, "1.0.0", [], 0, 0⟩ none 6 = true ↔ 6 > 0 + 3600000) ∧
    timeBasedCheck ⟨0, 0, "1.0.0", [], 0, 0⟩ (some 0) 6 =
      timeBasedCheck ⟨0, 0, "1.0.0", [], 0, 0⟩ none 6 ∧
    lookupStrategy "time-based" = some ⟨.timeBased, .refresh⟩ :=
  timeBased_strict_threshold ⟨0, 0, "1.0.0", [], 0, 0⟩ 5 6

/-- Counterexample to C5 as stated, at two explicit inputs.  Boundary: with
write at 0, `maxAge = 1000`, check at `now = 1000`, the claimed condition
`now ≥ t0 + m` holds yet the strategy does not trigger, because the source
compares with strict `>` (age `1000 > 1000` is false).  Falsy zero: with a
supplied `maxAge = 0` and check at `now = 1`, the claim demands a trigger
(`1 ≥ 0 + 0`), yet `options.maxAge || 3600000` substitutes the default for
the falsy 0 and the strategy does not trigger. -/
theorem timeBased_boundary_counterexample :
    timeBasedCheck ⟨0, 0, "1.0.0", [], 0, 0⟩ (some 1000) 1000 = false ∧
    1000 ≥ 0 + 1000 ∧
    timeBasedCheck ⟨0, 0, "1.0.0", [], 0, 0⟩ (some 0) 1 = false ∧
    (1 : Nat) ≥ 0 + 0 := by
  exact ⟨by decide, by decide, by decide, by decide⟩

/-! ## Claim C7: unknown strategy handling in invalidateCache -/

/-- C7 (amended): `invalidateCache` looks the cache entry up first, and a
key with no entry returns `false` without consulting the strategy registry,
even for an unregistered strategy name.  Only when an entry exists does an
unregistered name throw the unknown-strategy error; a registered name then
returns the predicate's boolean result, provided the options are well
formed for it (`dependency-based` requires `options.dependencies`, whose
absence throws a `TypeError` instead). -/
theorem invalidateCache_entry_guard (mgr : InvManager) (e : CEntry) (name : String)
    (opts : InvOptions) (now : Nat) :
    invalidateCache mgr none name opts now = .ok false ∧
    (lookupStrategy name = none →
      invalidateCache mgr (some e) name opts now =
        .error ("Unknown invalidation strategy: " ++ name)) ∧
    (∀ cfg, lookupStrategy name = some cfg →
      invalidateCache mgr (some e) name opts now = runCheck cfg.tag mgr e opts now ∧
      ((cfg.tag = .dependencyBased → opts.dependencies ≠ none) →
        ∃ b, runCheck cfg.tag mgr e opts now = .ok b)) := by
  refine ⟨rfl, ?_, ?_⟩
  · intro h
    simp [invalidateCache, h]
  · intro cfg h
    refine ⟨by simp [invalidateCache, h], ?_⟩
    intro hwf
    cases htag : cfg.tag with
    | timeBased => exact ⟨_, rfl⟩
    | versionBased => exact ⟨_, rfl⟩
    | usageBased => exact ⟨_, rfl⟩
    | dependencyBased =>
      cases hdeps : opts.dependencies with
      | none => exact absurd hdeps (hwf htag)
      | some ds =>
        exact ⟨dependencyCheck mgr.dependencies ds e.dependencies, by simp [runCheck, hdeps]⟩

/-- Witness for C7 at concrete inputs: with no cache entry for the key, the
unregistered name "bogus" yields `ok false`; with an entry present it
yields the unknown-strategy error; with an entry present, the registered
"version-based" returns a boolean. -/
theorem invalidateCache_entry_guard_witness :
    invalidateCache ⟨[], []⟩ none "bogus" ⟨none, none, none, none, none⟩ 0 = .ok false ∧
    invalidateCache ⟨[], []⟩ (some ⟨0, 0, "1.0.0", [], 0, 0⟩) "bogus"
      ⟨none, none, none, none, none⟩ 0 =
      .error ("Unknown invalidation strategy: " ++ "bogus") ∧
    ∃ b, runCheck StratTag.versionBased ⟨[], []⟩ ⟨0, 0, "1.0.0", [], 0, 0⟩
      ⟨none, none, none, none, none⟩ 0 = .ok b := by
  have h := invalidateCache_entry_guard ⟨[], []⟩ ⟨0, 0, "1.0.0", [], 0, 0⟩ "bogus"
    ⟨none, none, none, none, none⟩ 0
  have h2 := invalidateCache_entry_guard ⟨[], []⟩ ⟨0, 0, "1.0.0", [], 0, 0⟩ "version-based"
    ⟨none, none, none, none, none⟩ 0
  exact ⟨h.1, h.2.1 rfl, ((h2.2.2 ⟨.versionBased, .clear⟩ rfl).2 (by intro hh; exact absurd hh (by decide))).imp fun b hb => hb⟩

/-- Counterexample to C7 as stated: for a key without a cache entry, the
unregistered strategy name "bogus" does not fail with the unknown-strategy
error — the call returns `ok false` because the entry check precedes the
registry lookup. -/
theorem invalidateCache_missing_entry_counterexample :
    invalidateCache ⟨[], []⟩ none "bogus" ⟨none, none, none, none, none⟩ 0 = .ok false ∧
    lookupStrategy "bogus" = none := by
  exact ⟨rfl, by decide⟩

/-! ## Claim C9: dependency-based invalidation semantics -/

/-- A single dependency key reports a change iff a current DependencyRecord
exists for it and the snapshot either lacks the key or recorded a different
version. -/
theorem hasDependencyChanged_iff (registry snapshot : List (String × Nat)) (d : String) :
    hasDependencyChanged registry d snapshot = true ↔
      ∃ cv, List.lookup d registry = some cv ∧ List.lookup d snapshot ≠ some cv := by
  unfold hasDependencyChanged
  cases hr : List.lookup d registry with
  | none => simp
  | some cv =>
    cases hs : List.lookup d snapshot with
    | none => simp
    | some sv =>
      simp only [decide_eq_true_eq, Option.some.injEq]
      constructor
      · intro h
        exact ⟨cv, rfl, fun hh => h (Option.some.inj hh).symm⟩
      · rintro ⟨cv', hcc, hne⟩
        subst hcc
        exact fun hh => hne (by rw [hh])

/-- C9 (confirmed): the dependency-based strategy returns true iff some key
in `options.dependencies` has a current DependencyRecord whose version
differs from the version in the entry's snapshot, with a key absent from
the snapshot counting as changed (the absent case is folded into
`≠ some version`); the registered action is `clear`, and the registry
dispatch passes `options.dependencies`, the manager's dependency ledger and
the entry's snapshot into exactly this predicate. -/
theorem dependencyBased_change_iff (registry snapshot : List (String × Nat))
    (deps : List String) (mgr : InvManager) (e : CEntry) (opts : InvOptions) (now : Nat) :
    (dependencyCheck registry deps snapshot = true ↔
      ∃ d ∈ deps, ∃ cv, List.lookup d registry = some cv ∧
        List.lookup d snapshot ≠ some cv) ∧
    (∀ ds, opts.dependencies = some ds →
      runCheck .dependencyBased mgr e opts now =
        .ok (dependencyCheck mgr.dependencies ds e.dependencies)) ∧
    lookupStrategy "dependency-based" = some ⟨.dependencyBased, .clear⟩ := by
  refine ⟨?_, ?_, by decide⟩
  · unfold dependencyCheck
    rw [List.any_eq_true]
    constructor
    · rintro ⟨d, hd, hh⟩
      exact ⟨d, hd, (hasDependencyChanged_iff registry snapshot d).mp hh⟩
    · rintro ⟨d, hd, hh⟩
      exact ⟨d, hd, (hasDependencyChanged_iff registry snapshot d).mpr hh⟩
  · intro ds hds
    simp [runCheck, hds]

/-- Witness for C9 at concrete inputs: registry has "childA" at version 2,
the snapshot recorded version 1, so the check over `["childA"]` triggers. -/
theorem dependencyBased_change_iff_witness :
    (dependencyCheck [("childA", 2)] ["childA"] [("childA", 1)] = true ↔
      ∃ d ∈ ["childA"], ∃ cv, List.lookup d [("childA", 2)] = some cv ∧
        List.lookup d [("childA", 1)] ≠ some cv) ∧
    runCheck .dependencyBased ⟨[("childA", 2)], []⟩ ⟨0, 0, "1.0.0", [("childA", 1)], 0, 0⟩
      ⟨none, none, some ["childA"], none, none⟩ 0 =
      .ok (dependencyCheck [("childA", 2)] ["childA"] [("childA", 1)]) ∧
    lookupStrategy "dependency-based" = some ⟨.dependencyBased, .clear⟩ := by
  have h := dependencyBased_change_iff [("childA", 2)] [("childA", 1)] ["childA"]
    ⟨[("childA", 2)], []⟩ ⟨0, 0, "1.0.0", [("childA", 1)], 0, 0⟩
    ⟨none, none, some ["childA"], none, none⟩ 0
  exact ⟨h.1, h.2.1 ["childA"] rfl, h.2.2⟩

/-! ## Claim C10: memory-tier TTL stamped at write, enforced lazily at read -/

/-- The state component of `hybridSet` is the `setToMemory` result in every
redis configuration. -/
theorem hybridSet_state (st : HCState) (key : String) (value : Nat)
    (ttlOpt prioOpt : Option Nat) (now : Nat) (redisOk : Bool) :
    (hybridSet st key value ttlOpt prioOpt now redisOk).1 =
      setToMemory st key value (falsyD ttlOpt st.defaultTTL) (falsyD prioOpt 1) now := by
  unfold hybridSet
  cases st.redisConfigured <;> cases redisOk <;> rfl

/-- C10 (confirmed): `set` stamps the memory-tier entry with
`expiry = now + ttl` (ttl defaulting to the constructor's
`defaultTTL = 300000` when absent or falsy), and an entry whose expiry lies
before the current time is reported absent by a read, counted as a miss,
and deleted from the memory tier as a side effect of the read. -/
theorem memory_ttl_lazy_expiry (st : HCState) (k : String) (v : Nat)
    (ttlOpt prioOpt : Option Nat) (now now2 : Nat) (redisOk : Bool) (e : MemEntry) :
    (List.lookup k (hybridSet st k v ttlOpt prioOpt now redisOk).1.memoryCache =
      some ⟨v, now + falsyD ttlOpt st.defaultTTL, now, falsyD prioOpt 1⟩) ∧
    (hybridInit none none false).defaultTTL = 300000 ∧
    (List.lookup k st.memoryCache = some e → e.expiry < now2 →
      (getFromMemory st k now2).1 = none ∧
      List.lookup k (getFromMemory st k now2).2.memoryCache = none ∧
      (hybridGet st k false now2).1 = none ∧
      (hybridGet st k false now2).2.stats.misses = st.stats.misses + 1) := by
  refine ⟨?_, rfl, ?_⟩
  · rw [hybridSet_state]
    unfold setToMemory
    exact lookup_mapSet _ k _
  · intro hl hexp
    have hget : getFromMemory st k now2 =
        (none, { st with memoryCache := st.memoryCache.filter fun p => p.1 ≠ k }) := by
      unfold getFromMemory
      rw [hl]
      simp [hexp]
    refine ⟨by rw [hget], ?_, ?_, ?_⟩
    · rw [hget]
      exact lookup_filter_ne st.memoryCache k
    · simp [hybridGet, hget]
    · simp [hybridGet, hget]

/-- Witness for C10 at a concrete state: an entry with expiry 100 read at
time 200 misses, is deleted, and bumps the miss counter. -/
theorem memory_ttl_lazy_expiry_witness :
    (List.lookup "k"
      (hybridSet (hybridInit none none false) "k" 7 none none 50 false).1.memoryCache =
      some ⟨7, 50 + falsyD none (hybridInit none none false).defaultTTL, 50, falsyD none 1⟩) ∧
    (hybridInit none none false).defaultTTL = 300000 ∧
    ((getFromMemory
        { memoryCache := [("k", ⟨7, 100, 0, 1⟩)], hitCounter := [],
          redisConfigured := false, defaultTTL := 300000, memoryLimit := 100,
          stats := ⟨0, 0, 0, 0⟩ } "k" 200).1 = none ∧
      List.lookup "k" (getFromMemory
        { memoryCache := [("k", ⟨7, 100, 0, 1⟩)], hitCounter := [],
          redisConfigured := false, defaultTTL := 300000, memoryLimit := 100,
          stats := ⟨0, 0, 0, 0⟩ } "k" 200).2.memoryCache = none ∧
      (hybridGet
        { memoryCache := [("k", ⟨7, 100, 0, 1⟩)], hitCounter := [],
          redisConfigured := false, defaultTTL := 300000, memoryLimit := 100,
          stats := ⟨0, 0, 0, 0⟩ } "k" false 200).1 = none ∧
      (hybridGet
        { memoryCache := [("k", ⟨7, 100, 0, 1⟩)], hitCounter := [],
          redisConfigured := false, defaultTTL := 300000, memoryLimit := 100,
          stats := ⟨0, 0, 0, 0⟩ } "k" false 200).2.stats.misses = 0 + 1) := by
  have h1 := memory_ttl_lazy_expiry (hybridInit none none false) "k" 7 none none 50 0 false
    ⟨7, 100, 0, 1⟩
  have h2 := memory_ttl_lazy_expiry
    { memoryCache := [("k", ⟨7, 100, 0, 1⟩)], hitCounter := [],
      redisConfigured := false, defaultTTL := 300000, memoryLimit := 100,
      stats := ⟨0, 0, 0, 0⟩ } "k" 7 none none 50 200 false ⟨7, 100, 0, 1⟩
  exact ⟨h1.1, h1.2.1, h2.2.2 (by decide) (by decide)⟩

/-! ## Claim C6: tiered writes in setCache and redis absorption in set -/

/-- C6 (amended): `CacheInvalidationManager.setCache` writes the in-memory
tier iff `options.priority === 'high'`, always attempts localStorage, and
attempts IndexedDB iff `options.persistent` is set and localStorage
succeeded; because none of the writes is guarded by a `try`/`catch`, a
rejected localStorage or IndexedDB write rejects the whole `setCache`
instead of being absorbed.  In `HybridCache.set` the memory tier is always
written and a redis write failure is absorbed: `set` still returns true. -/
theorem setCache_tier_writes (ph ps lsOk idbOk : Bool) (st : HCState) (k : String)
    (v : Nat) (ttlOpt prioOpt : Option Nat) (now : Nat) (redisOk : Bool) :
    ((setCache ph ps lsOk idbOk).written.memory = ph) ∧
    ((setCache ph ps lsOk idbOk).written.localStorage = lsOk) ∧
    ((setCache ph ps lsOk idbOk).written.idb = (lsOk && ps && idbOk)) ∧
    ((setCache ph ps lsOk idbOk).outcome = .ok () ↔
      (lsOk = true ∧ (ps = true → idbOk = true))) ∧
    (lsOk = false ∨ (ps = true ∧ idbOk = false) →
      ∃ msg, (setCache ph ps lsOk idbOk).outcome = .error msg) ∧
    ((hybridSet st k v ttlOpt prioOpt now redisOk).2.1 = true) ∧
    (List.lookup k (hybridSet st k v ttlOpt prioOpt now redisOk).1.memoryCache ≠ none) := by
  refine ⟨?_, ?_, ?_, ?_, ?_, ?_, ?_⟩
  · cases ph <;> cases ps <;> cases lsOk <;> cases idbOk <;> rfl
  · cases ph <;> cases ps <;> cases lsOk <;> cases idbOk <;> rfl
  · cases ph <;> cases ps <;> cases lsOk <;> cases idbOk <;> rfl
  · cases ph <;> cases ps <;> cases lsOk <;> cases idbOk <;> simp [setCache]
  · cases ph <;> cases ps <;> cases lsOk <;> cases idbOk <;> simp [setCache]
  · unfold hybridSet
    cases st.redisConfigured <;> cases redisOk <;> rfl
  · rw [hybridSet_state]
    unfold setToMemory
    rw [lookup_mapSet]
    exact fun hh => Option.noConfusion hh

/-- Witness for C6 at concrete inputs: priority low, persistent, both
backends healthy — memory skipped, localStorage and IndexedDB written, the
call succeeds; and a `HybridCache.set` against a configured but failing
redis backend still returns true with the key in memory. -/
theorem setCache_tier_writes_witness :
    ((setCache false true true true).written.memory = false) ∧
    ((setCache false true true true).written.idb = (true && true && true)) ∧
    ((setCache false true true true).outcome = .ok () ↔
      (true = true ∧ (true = true → true = true))) ∧
    ((hybridSet (hybridInit none none true) "k" 3 none none 0 false).2.1 = true) ∧
    (List.lookup "k"
      (hybridSet (hybridInit none none true) "k" 3 none none 0 false).1.memoryCache ≠ none) := by
  have h := setCache_tier_writes false true true true (hybridInit none none true) "k" 3
    none none 0 false
  exact ⟨h.1, h.2.2.1, h.2.2.2.1, h.2.2.2.2.2.1, h.2.2.2.2.2.2⟩

/-- Counterexample to C6 as stated: with `options.persistent` set and a
failing IndexedDB backend (localStorage healthy), the overall `setCache`
rejects — the non-memory-tier write failure is not absorbed. -/
theorem setCache_failure_propagates_counterexample :
    (setCache false true true false).outcome =
      .error "StorageBackendError: setToIDB rejected" ∧
    (setCache false true true false).written.localStorage = true := by
  exact ⟨rfl, rfl⟩

/-! ## Claim C3: stale fallback on origin failure -/

/-- C3 (amended): on origin failure with `options.fallback === 'stale'` the
coordinator re-reads the key through `cache.get` skipping only the redis
tier, so memory-tier TTL expiry still applies: an unexpired entry with a
truthy value is handed to the caller and all waiters in place of the error,
an expired entry is deleted by the read and yields nothing, and with no
(truthy, unexpired) value available every waiter receives the origin
failure; without the stale fallback option the error is propagated
directly. -/
theorem staleFallback_memory_ttl (st : HCState) (k : String) (now : Nat)
    (err : String) (waiters : List Nat) (e : MemEntry) :
    (List.lookup k st.memoryCache = some e → ¬ e.expiry < now → e.value ≠ 0 →
      (onOriginFailure (some "stale") st k now err waiters).outcome = .ok e.value ∧
      (onOriginFailure (some "stale") st k now err waiters).released =
        waiters.map fun w => (w, .ok e.value)) ∧
    (List.lookup k st.memoryCache = some e → e.expiry < now →
      (onOriginFailure (some "stale") st k now err waiters).outcome = .error err ∧
      (onOriginFailure (some "stale") st k now err waiters).released =
        (waiters.map fun w => (w, .error err)) ∧
      List.lookup k (onOriginFailure (some "stale") st k now err waiters).st.memoryCache =
        none) ∧
    (List.lookup k st.memoryCache = none →
      (onOriginFailure (some "stale") st k now err waiters).outcome = .error err) ∧
    (onOriginFailure none st k now err waiters).outcome = .error err := by
  refine ⟨?_, ?_, ?_, rfl⟩
  · intro hl hexp hval
    have hget : getFromMemory st k now =
        (some e.value, { st with memoryCache := st.memoryCache.map fun p =>
          if p.1 = k then (p.1, { p.2 with lastAccessed := now }) else p }) := by
      unfold getFromMemory
      rw [hl]
      simp [hexp]
    constructor
    · simp [onOriginFailure, hybridGet, hget, hval]
    · simp [onOriginFailure, hybridGet, hget, hval]
  · intro hl hexp
    have hget : getFromMemory st k now =
        (none, { st with memoryCache := st.memoryCache.filter fun p => p.1 ≠ k }) := by
      unfold getFromMemory
      rw [hl]
      simp [hexp]
    refine ⟨?_, ?_, ?_⟩
    · simp [onOriginFailure, hybridGet, hget]
    · simp [onOriginFailure, hybridGet, hget]
    · have hst : (onOriginFailure (some "stale") st k now err waiters).st.memoryCache =
          st.memoryCache.filter fun p => p.1 ≠ k := by
        simp [onOriginFailure, hybridGet, hget]
      rw [hst]
      exact lookup_filter_ne st.memoryCache k
  · intro hl
    have hget : getFromMemory st k now = (none, st) := by
      unfold getFromMemory
      rw [hl]
    simp [onOriginFailure, hybridGet, hget]

/-- Witness for C3 at concrete states: an unexpired truthy entry (value 9,
expiry 500, read at 200) is served stale to the waiters; an expired entry
(expiry 100, read at 200) yields the origin error and is deleted. -/
theorem staleFallback_memory_ttl_witness :
    ((onOriginFailure (some "stale")
        { memoryCache := [("k", ⟨9, 500, 0, 1⟩)], hitCounter := [],
          redisConfigured := false, defaultTTL := 300000, memoryLimit := 100,
          stats := ⟨0, 0, 0, 0⟩ } "k" 200 "HTTP 500" [0, 1]).outcome = .ok 9 ∧
      (onOriginFailure (some "stale")
        { memoryCache := [("k", ⟨9, 500, 0, 1⟩)], hitCounter := [],
          redisConfigured := false, defaultTTL := 300000, memoryLimit := 100,
          stats := ⟨0, 0, 0, 0⟩ } "k" 200 "HTTP 500" [0, 1]).released =
        [0, 1].map fun w => (w, .ok 9)) ∧
    ((onOriginFailure (some "stale")
        { memoryCache := [("k", ⟨9, 100, 0, 1⟩)], hitCounter := [],
          redisConfigured := false, defaultTTL := 300000, memoryLimit := 100,
          stats := ⟨0, 0, 0, 0⟩ } "k" 200 "HTTP 500" [0, 1]).outcome = .error "HTTP 500") := by
  have h1 := staleFallback_memory_ttl
    { memoryCache := [("k", ⟨9, 500, 0, 1⟩)], hitCounter := [],
      redisConfigured := false, defaultTTL := 300000, memoryLimit := 100,
      stats := ⟨0, 0, 0, 0⟩ } "k" 200 "HTTP 500" [0, 1] ⟨9, 500, 0, 1⟩
  have h2 := staleFallback_memory_ttl
    { memoryCache := [("k", ⟨9, 100, 0, 1⟩)], hitCounter := [],
      redisConfigured := false, defaultTTL := 300000, memoryLimit := 100,
      stats := ⟨0, 0, 0, 0⟩ } "k" 200 "HTTP 500" [0, 1] ⟨9, 100, 0, 1⟩
  exact ⟨h1.1 (by decide) (by decide) (by decide), (h2.2.1 (by decide) (by decide)).1⟩

/-- Counterexample to C3 as stated: the fallback read does not ignore TTL
expiry.  A last-known value (7) is physically present for the key but its
expiry (100) lies before now (200); the claim demands the waiters receive
the stale value 7, yet the outcome is the origin error, because
`getFromMemory` deletes the expired entry and reports a miss. -/
theorem staleFallback_expired_counterexample :
    (onOriginFailure (some "stale")
      { memoryCache := [("k", ⟨7, 100, 0, 1⟩)], hitCounter := [],
        redisConfigured := false, defaultTTL := 300000, memoryLimit := 100,
        stats := ⟨0, 0, 0, 0⟩ } "k" 200 "HTTP 500" [0]).outcome = .error "HTTP 500" ∧
    List.lookup "k" [("k", (⟨7, 100, 0, 1⟩ : MemEntry))] = some ⟨7, 100, 0, 1⟩ := by
  exact ⟨rfl, rfl⟩

/-! ## Claim C2: circuit breaker state machine -/

/-- C2 (amended): with the spec-modelled breaker (threshold 5, cooldown
60 s), five consecutive failing origin calls open the breaker for the
origin; a further call while open and within the cooldown window fails with
the circuit-open error without invoking the origin.  On origin success,
however, the coordinator does not notify the breaker at all — the success
path of `cachedFetch` never calls into `this.circuitBreaker` — so
`consecutiveFailures` is not reset and the breaker record is unchanged. -/
theorem circuitBreaker_fiveFailures_open (b : Breaker) (t now v : Nat)
    (res : Except String Nat) :
    ((afterFailures 5 t).state = .open ∧ (afterFailures 5 t).openedAt = t ∧
      (afterFailures 5 t).consecutiveFailures = 5) ∧
    (b.state = .open → now - b.openedAt < 60000 →
      (fetchStep b now res).originInvoked = false ∧
      (fetchStep b now res).outcome = .error "Circuit breaker open") ∧
    (b.state = .closed → fetchStep b now (.ok v) = ⟨.ok v, b, true⟩) := by
  refine ⟨⟨rfl, rfl, rfl⟩, ?_, ?_⟩
  · intro hopen hcool
    have hcan : canRequest b now = (false, b) := by
      unfold canRequest
      rw [hopen]
      simp [hcool]
    constructor
    · simp [fetchStep, hcan]
    · simp [fetchStep, hcan]
  · intro hclosed
    have hcan : canRequest b now = (true, b) := by
      unfold canRequest
      rw [hclosed]
    simp [fetchStep, hcan]

/-- Witness for C2 at concrete inputs: five failures at time 0 open the
breaker; a sixth call at time 1000 (inside the 60 s cooldown) is rejected
without the origin being invoked; a success against a fresh closed breaker
leaves the record untouched. -/
theorem circuitBreaker_fiveFailures_open_witness :
    ((afterFailures 5 0).state = .open ∧ (afterFailures 5 0).openedAt = 0 ∧
      (afterFailures 5 0).consecutiveFailures = 5) ∧
    ((fetchStep (afterFailures 5 0) 1000 (.ok 1)).originInvoked = false ∧
      (fetchStep (afterFailures 5 0) 1000 (.ok 1)).outcome =
        .error "Circuit breaker open") ∧
    fetchStep breakerInit 1000 (.ok 1) = ⟨.ok 1, breakerInit, true⟩ := by
  have h := circuitBreaker_fiveFailures_open (afterFailures 5 0) 0 1000 1 (.ok 1)
  have h2 := circuitBreaker_fiveFailures_open breakerInit 0 1000 1 (.ok 1)
  exact ⟨h.1, h.2.1 (by decide) (by decide), h2.2.2 (by decide)⟩

/-- Counterexample to C2 as stated: after three failing calls the breaker
holds `consecutiveFailures = 3`; a successful origin call does not reset it
to 0 — the count and the whole record are unchanged, because the success
path of `cachedFetch` (src/unnamed/part_001 lines 291-297) contains no call
into the breaker. -/
theorem circuitBreaker_success_no_reset_counterexample :
    (fetchStep (afterFailures 3 0) 50 (.ok 7)).breaker.consecutiveFailures = 3 ∧
    (fetchStep (afterFailures 3 0) 50 (.ok 7)).breaker = afterFailures 3 0 ∧
    (3 : Nat) ≠ 0 := by
  exact ⟨rfl, rfl, by decide⟩

/-! ## Claim C8: cache-key sanitization and determinism -/

/-- Pointwise relation between two header lists that the sanitizer
collapses: same names in the same positions, and each value pair either
equal outright or differing only on a denylisted header with both values
truthy (non-empty). -/
def sanCollapse (p q : String × String) : Prop :=
  p.1 = q.1 ∧ (p.2 = q.2 ∨ (p.1 ∈ sensitiveHeaders ∧ p.2 ≠ "" ∧ q.2 ≠ ""))

/-- Two header lists related pointwise by `sanCollapse` sanitize to the
same header object. -/
theorem sanitizeHeaders_collapse (h1 h2 : List (String × String))
    (h : List.Forall₂ sanCollapse h1 h2) :
    sanitizeHeaders h1 = sanitizeHeaders h2 := by
  induction h with
  | nil => rfl
  | cons hpq hrest ih =>
    rename_i p q l1 l2
    unfold sanitizeHeaders at ih ⊢
    rw [List.map_cons, List.map_cons]
    refine congrArg₂ (· :: ·) ?_ ih
    obtain ⟨hn, hv⟩ := hpq
    rcases hv with hv | ⟨hs, hp2, hq2⟩
    · have : p = q := Prod.ext hn hv
      rw [this]
    · rw [if_pos ⟨hs, hp2⟩, if_pos ⟨hn ▸ hs, hq2⟩, hn]

/-- C8 (amended): `generateCacheKey` is a pure function of the request
descriptor alone — the model takes no clock or process input — and two
requests that differ only in the values of the denylisted sensitive
headers `authorization`, `cookie` and `x-api-key` (not `api-key`), with
truthy values on both sides, map to the same key, because those values are
replaced by the constant marker `***` before hashing. -/
theorem generateCacheKey_sanitizes (url method : String) (body : Option String)
    (h1 h2 : List (String × String)) (h : List.Forall₂ sanCollapse h1 h2) :
    generateCacheKey ⟨url, method, h1, body⟩ = generateCacheKey ⟨url, method, h2, body⟩ := by
  unfold generateCacheKey
  rw [sanitizeHeaders_collapse h1 h2 h]

/-- Witness for C8 at concrete requests: two descriptors differing only in
the `authorization` header value produce the identical cache key. -/
theorem generateCacheKey_sanitizes_witness :
    generateCacheKey ⟨"https://api.example.com/users", "GET",
      [("accept", "application/json"), ("authorization", "Bearer token-a")], none⟩ =
    generateCacheKey ⟨"https://api.example.com/users", "GET",
      [("accept", "application/json"), ("authorization", "Bearer token-b")], none⟩ :=
  generateCacheKey_sanitizes "https://api.example.com/users" "GET" none
    [("accept", "application/json"), ("authorization", "Bearer token-a")]
    [("accept", "application/json"), ("authorization", "Bearer token-b")]
    (List.Forall₂.cons ⟨rfl, Or.inl rfl⟩
      (List.Forall₂.cons ⟨rfl, Or.inr ⟨by decide, by decide, by decide⟩⟩
        List.Forall₂.nil))

set_option maxRecDepth 10000 in
/-- Counterexample to C8 as stated: the denylist entry is `x-api-key`, not
`api-key` — two requests that differ only in the value of an `api-key`
header are not collapsed and map to different cache keys. -/
theorem apiKey_header_not_redacted_counterexample :
    generateCacheKey ⟨"u", "GET", [("api-key", "secret-a")], none⟩ ≠
      generateCacheKey ⟨"u", "GET", [("api-key", "secret-b")], none⟩ ∧
    "api-key" ∉ sensitiveHeaders ∧ "x-api-key" ∈ sensitiveHeaders := by
  exact ⟨by decide, by decide, by decide⟩

/-! ## Claim C1: deduplication of concurrent fetches -/

/-- Coordinator state right after both callers have entered on a cold
cache: the first claimant owns the in-flight call, the other sits in the
request queue. -/
def leaderState (first : Bool) : DedupState :=
  { pending := true
    queue := [!first]
    originCalls := 1
    cacheVal := none
    ph0 := if first then CPhase.waiting else CPhase.fetching
    ph1 := if first then CPhase.fetching else CPhase.waiting }

/-- Coordinator state after the in-flight call settled: queue drained,
pending claim cleared, every caller holding the settled outcome. -/
def finalState (res : Except String Nat) : DedupState :=
  match res with
  | .ok v => ⟨false, [], 1, some v, .done (.ok v), .done (.ok v)⟩
  | .error e => ⟨false, [], 1, none, .done (.error e), .done (.error e)⟩

/-- The two entry steps from the cold state put the system into
`leaderState`: exactly one caller claims `pendingRequests` and starts the
origin call, the other joins the queue. -/
theorem claims_reach_leader (res : Except String Nat) (first : Bool) :
    dedupStep res (dedupStep res dedupInit first) (!first) = leaderState first := by
  cases first <;> rfl

/-- A step given to the queued waiter changes nothing. -/
theorem step_waiter (res : Except String Nat) (first : Bool) :
    dedupStep res (leaderState first) (!first) = leaderState first := by
  cases first <;> rfl

/-- The leader's settlement step releases the queue and clears the pending
claim, reaching `finalState`. -/
theorem step_leader_completes (res : Except String Nat) (first : Bool) :
    dedupStep res (leaderState first) first = finalState res := by
  cases first <;> cases res <;> rfl

/-- The settled state is a fixed point of every further step. -/
theorem step_final_fixed (res : Except String Nat) (i : Bool) :
    dedupStep res (finalState res) i = finalState res := by
  cases res <;> cases i <;> rfl

/-- Every continuation from `leaderState` or `finalState` stays within
those two states. -/
theorem dedup_reach (res : Except String Nat) (first : Bool) :
    ∀ (l : List Bool) (s : DedupState),
      (s = leaderState first ∨ s = finalState res) →
      (List.foldl (dedupStep res) s l = leaderState first ∨
        List.foldl (dedupStep res) s l = finalState res) := by
  intro l
  induction l with
  | nil =>
    intro s h
    simpa using h
  | cons i tl ih =>
    intro s h
    rcases h with h | h
    · subst h
      by_cases hi : i = first
      · subst hi
        rw [List.foldl_cons, step_leader_completes]
        exact ih _ (Or.inr rfl)
      · have hi2 : i = !first := by cases i <;> cases first <;> simp_all
        rw [List.foldl_cons, hi2, step_waiter]
        exact ih _ (Or.inl rfl)
    · subst h
      rw [List.foldl_cons, step_final_fixed]
      exact ih _ (Or.inr rfl)

/-- A prefix of a cons-list is empty or a cons of a prefix of the tail. -/
theorem prefix_cons_cases {α : Type} (pre : List α) (x : α) (xs : List α)
    (h : pre <+: x :: xs) : pre = [] ∨ ∃ ps, pre = x :: ps ∧ ps <+: xs := by
  rcases h with ⟨t, ht⟩
  cases pre with
  | nil => exact Or.inl rfl
  | cons p ps =>
    rw [List.cons_append] at ht
    injection ht with h1 h2
    exact Or.inr ⟨ps, by rw [h1], ⟨t, h2⟩⟩

/-- C1 (confirmed): on a cold cache, when two callers invoke `cachedFetch`
for the same key concurrently (both enter before either settles) with
deduplication enabled, the origin is invoked exactly once for every
interleaving of the remaining steps; whenever both callers have settled
they hold the identical outcome — the origin's value on success and its
propagated error on failure — and at every point of the run at most one
caller owns the pending-fetch claim for the key. -/
theorem dedup_single_flight (res : Except String Nat) (first : Bool) (rest : List Bool) :
    (dedupRun res (first :: (!first) :: rest)).originCalls = 1 ∧
    (∀ o0 o1, (dedupRun res (first :: (!first) :: rest)).ph0 = .done o0 →
      (dedupRun res (first :: (!first) :: rest)).ph1 = .done o1 →
      o0 = res ∧ o1 = res) ∧
    (∀ pre, pre <+: (first :: (!first) :: rest) → leaders (dedupRun res pre) ≤ 1) := by
  have hrun : dedupRun res (first :: (!first) :: rest) = leaderState first ∨
      dedupRun res (first :: (!first) :: rest) = finalState res := by
    unfold dedupRun
    rw [List.foldl_cons, List.foldl_cons, claims_reach_leader]
    exact dedup_reach res first rest _ (Or.inl rfl)
  have hleadcalls : (leaderState first).originCalls = 1 := rfl
  have hfincalls : (finalState res).originCalls = 1 := by cases res <;> rfl
  refine ⟨?_, ?_, ?_⟩
  · rcases hrun with h | h
    · rw [h, hleadcalls]
    · rw [h, hfincalls]
  · intro o0 o1 h0 h1
    rcases hrun with h | h
    · rw [h] at h0 h1
      cases first
      · simp [leaderState] at h0
      · simp [leaderState] at h1
    · rw [h] at h0 h1
      cases res with
      | ok v =>
        simp only [finalState] at h0 h1
        exact ⟨(CPhase.done.inj h0).symm, (CPhase.done.inj h1).symm⟩
      | error e =>
        simp only [finalState] at h0 h1
        exact ⟨(CPhase.done.inj h0).symm, (CPhase.done.inj h1).symm⟩
  · intro pre hpre
    rcases prefix_cons_cases pre first ((!first) :: rest) hpre with h | ⟨ps, hps, hps2⟩
    · subst h
      have h0 : leaders (dedupRun res []) = 0 := rfl
      omega
    · rcases prefix_cons_cases ps (!first) rest hps2 with h | ⟨qs, hqs, hqs2⟩
      · subst h
        subst hps
        have h1 : leaders (dedupRun res [first]) = 1 := by cases first <;> rfl
        omega
      · subst hqs
        subst hps
        have hfold : dedupRun res (first :: (!first) :: qs) = leaderState first ∨
            dedupRun res (first :: (!first) :: qs) = finalState res := by
          unfold dedupRun
          rw [List.foldl_cons, List.foldl_cons, claims_reach_leader]
          exact dedup_reach res first qs _ (Or.inl rfl)
        have hlead : leaders (leaderState first) ≤ 1 := by cases first <;> decide
        have hfin : leaders (finalState res) ≤ 1 := by
          have : leaders (finalState res) = 0 := by cases res <;> rfl
          omega
        rcases hfold with h | h <;> rw [h]
        · exact hlead
        · exact hfin

/-- Witness for C1 at a concrete run: origin returns 42, caller 0 enters
first, the leader settles, and a further (idle) step is scheduled — both
callers end with `ok 42`, a single origin call, and the pending claim never
exceeds one at any prefix. -/
theorem dedup_single_flight_witness :
    (dedupRun (.ok 42) [false, true, false, true]).originCalls = 1 ∧
    (((.ok 42 : Except String Nat) = .ok 42) ∧ ((.ok 42 : Except String Nat) = .ok 42)) ∧
    leaders (dedupRun (.ok 42) [false, true]) ≤ 1 := by
  have h := dedup_single_flight (.ok 42) false [false, true]
  exact ⟨h.1, h.2.1 (.ok 42) (.ok 42) (by decide) (by decide),
    h.2.2 [false, true] ⟨[false, true], rfl⟩⟩

/-! ## Claim C4: priority-weighted eviction -/

/-- The sorted snapshot taken by `evictFromMemory`: the map entries in
insertion order, tagged with their position, stably sorted by score. -/
def sortedEnum (m : List (String × MemEntry)) : List (Nat × (String × MemEntry)) :=
  List.insertionSort evictLe m.enum

/-- The keys `evictFromMemory` deletes: those of the first `evictCount`
sorted entries. -/
def evictKeysOf (m : List (String × MemEntry)) (limit : Nat) : List String :=
  ((sortedEnum m).take (evictCount limit)).map fun q => q.2.1

/-- `evictFromMemory` unfolded through the proof-layer names. -/
theorem evictFromMemory_eq (m : List (String × MemEntry)) (limit : Nat) :
    evictFromMemory m limit = m.filter fun p => decide (p.1 ∉ evictKeysOf m limit) :=
  rfl

/-- The sorted snapshot is a permutation of the indexed entries. -/
theorem sortedEnum_perm (m : List (String × MemEntry)) : (sortedEnum m).Perm m.enum :=
  List.perm_insertionSort evictLe m.enum

/-- The sorted snapshot is sorted for the score-then-position order. -/
theorem sortedEnum_sorted (m : List (String × MemEntry)) :
    List.Sorted evictLe (sortedEnum m) :=
  List.sorted_insertionSort evictLe m.enum

/-- Length is preserved by sorting the indexed entries. -/
theorem sortedEnum_length (m : List (String × MemEntry)) :
    (sortedEnum m).length = m.length := by
  rw [(sortedEnum_perm m).length_eq, List.enum_length]

/-- Keys of the indexed entries are the keys of the map. -/
theorem enum_keys (m : List (String × MemEntry)) :
    m.enum.map (fun q => q.2.1) = m.map Prod.fst := by
  have h : (fun q : Nat × (String × MemEntry) => q.2.1) =
      Prod.fst ∘ (Prod.snd (α := Nat)) := rfl
  rw [h, ← List.map_map, List.enum_map_snd]

/-- With duplicate-free map keys, the sorted snapshot is duplicate-free. -/
theorem sortedEnum_nodup (m : List (String × MemEntry))
    (hnd : (m.map Prod.fst).Nodup) : (sortedEnum m).Nodup := by
  refine List.Nodup.of_map (fun q => q.2.1) ?_
  have hperm : ((sortedEnum m).map fun q => q.2.1).Perm (m.enum.map fun q => q.2.1) :=
    (sortedEnum_perm m).map _
  rw [enum_keys] at hperm
  exact hperm.nodup_iff.mpr hnd

/-- For an indexed entry of the map, its key is evicted exactly when the
indexed entry itself lies in the sorted prefix that gets deleted. -/
theorem mem_evictKeys_iff (m : List (String × MemEntry)) (limit : Nat)
    (hnd : (m.map Prod.fst).Nodup) (q : Nat × (String × MemEntry)) (hq : q ∈ m.enum) :
    q.2.1 ∈ evictKeysOf m limit ↔ q ∈ (sortedEnum m).take (evictCount limit) := by
  constructor
  · intro h
    rcases List.mem_map.mp h with ⟨r, hr, hkey⟩
    have hrS : r ∈ sortedEnum m := List.take_subset _ _ hr
    have hrE : r ∈ m.enum := (sortedEnum_perm m).mem_iff.mp hrS
    have hinj := List.inj_on_of_nodup_map (f := fun q : Nat × (String × MemEntry) => q.2.1)
      (l := m.enum) (by rw [enum_keys]; exact hnd)
    have hrq : r = q := hinj hrE hq hkey
    rw [← hrq]
    exact hr
  · intro h
    exact List.mem_map.mpr ⟨q, h, rfl⟩

/-- Filtering commutes with mapping. -/
theorem filter_map_comm {α β : Type} (l : List α) (f : α → β) (p : β → Bool) :
    (l.map f).filter p = (l.filter fun a => p (f a)).map f := by
  induction l with
  | nil => rfl
  | cons a tl ih =>
    by_cases h : p (f a) = true
    · simp [List.map_cons, List.filter_cons, h, ih]
    · simp only [Bool.not_eq_true] at h
      simp [List.map_cons, List.filter_cons, h, ih]

/-- Eviction removes exactly `evictCount limit` entries: with
duplicate-free keys and at least `limit ≥ 1` entries present, the surviving
map has `length - max 1 (limit / 10)` entries. -/
theorem evict_length (m : List (String × MemEntry)) (limit : Nat)
    (hL : 1 ≤ limit) (hlen : limit ≤ m.length) (hnd : (m.map Prod.fst).Nodup) :
    (evictFromMemory m limit).length = m.length - evictCount limit := by
  have hc : evictCount limit ≤ (sortedEnum m).length := by
    rw [sortedEnum_length]
    have h1 : limit / 10 ≤ limit := Nat.div_le_self limit 10
    have h2 : evictCount limit ≤ limit := max_le hL h1
    omega
  have hfm : m.filter (fun p => decide (p.1 ∉ evictKeysOf m limit)) =
      (m.enum.filter fun q => decide (q.2.1 ∉ evictKeysOf m limit)).map Prod.snd := by
    have h := filter_map_comm m.enum Prod.snd (fun p => decide (p.1 ∉ evictKeysOf m limit))
    rw [List.enum_map_snd] at h
    exact h
  rw [evictFromMemory_eq, hfm, List.length_map]
  have hcongr : (m.enum.filter fun q => decide (q.2.1 ∉ evictKeysOf m limit)) =
      m.enum.filter fun q => decide (q ∉ (sortedEnum m).take (evictCount limit)) := by
    refine List.filter_congr fun q hq => ?_
    rw [decide_eq_decide]
    exact not_congr (mem_evictKeys_iff m limit hnd q hq)
  rw [hcongr]
  have hperm : (m.enum.filter fun q =>
      decide (q ∉ (sortedEnum m).take (evictCount limit))).Perm
      ((sortedEnum m).filter fun q =>
        decide (q ∉ (sortedEnum m).take (evictCount limit))) :=
    List.Perm.filter _ (sortedEnum_perm m).symm
  rw [hperm.length_eq]
  have hnodupS : (sortedEnum m).Nodup := sortedEnum_nodup m hnd
  set T := (sortedEnum m).take (evictCount limit) with hT
  set D := (sortedEnum m).drop (evictCount limit) with hD
  have hsplit : T ++ D = sortedEnum m := List.take_append_drop (evictCount limit) _
  have hdisj : T.Disjoint D := by
    have h := hnodupS
    rw [← hsplit] at h
    exact (List.nodup_append.mp h).2.2
  rw [show sortedEnum m = T ++ D from hsplit.symm, List.filter_append]
  have h1 : T.filter (fun q => decide (q ∉ T)) = [] := by
    rw [List.filter_eq_nil_iff]
    intro a ha
    simp only [decide_eq_true_eq, Decidable.not_not]
    exact ha
  have h2 : D.filter (fun q => decide (q ∉ T)) = D := by
    rw [List.filter_eq_self]
    intro a ha
    simp only [decide_eq_true_eq]
    exact fun hmem => hdisj hmem ha
  rw [h1, h2, List.nil_append, hD, List.length_drop, sortedEnum_length]

/-- Eviction selects minimal entries: every evicted entry is strictly below
every surviving entry in the (score, insertion position) order — lower
`lastAccessed * priority` score goes first, and on equal scores the earlier
inserted entry goes first. -/
theorem evict_selection (m : List (String × MemEntry)) (limit : Nat)
    (hnd : (m.map Prod.fst).Nodup) (i j : Nat) (hi : i < m.length) (hj : j < m.length)
    (hrem : m[i].1 ∉ (evictFromMemory m limit).map Prod.fst)
    (hkept : m[j].1 ∈ (evictFromMemory m limit).map Prod.fst) :
    score m[i].2 < score m[j].2 ∨ (score m[i].2 = score m[j].2 ∧ i < j) := by
  set T := (sortedEnum m).take (evictCount limit) with hT
  set D := (sortedEnum m).drop (evictCount limit) with hD
  have hsplit : T ++ D = sortedEnum m := List.take_append_drop (evictCount limit) _
  have hdisj : T.Disjoint D := by
    have h := sortedEnum_nodup m hnd
    rw [← hsplit] at h
    exact (List.nodup_append.mp h).2.2
  have hilen : i < m.enum.length := by rw [List.enum_length]; exact hi
  have hjlen : j < m.enum.length := by rw [List.enum_length]; exact hj
  have hqi : (i, m[i]) ∈ m.enum := by
    rw [← List.getElem_enum m i hilen]
    exact List.getElem_mem _
  have hqj : (j, m[j]) ∈ m.enum := by
    rw [← List.getElem_enum m j hjlen]
    exact List.getElem_mem _
  have hqiS : (i, m[i]) ∈ T ++ D := by
    rw [hsplit]
    exact (sortedEnum_perm m).mem_iff.mpr hqi
  have hqjS : (j, m[j]) ∈ T ++ D := by
    rw [hsplit]
    exact (sortedEnum_perm m).mem_iff.mpr hqj
  have hiT : (i, m[i]) ∈ T := by
    rcases List.mem_append.mp hqiS with h | h
    · exact h
    · exfalso
      have hkey : ((i, m[i]) : Nat × (String × MemEntry)).2.1 ∉ evictKeysOf m limit := by
        intro hk
        exact hdisj ((mem_evictKeys_iff m limit hnd _ hqi).mp hk) h
      refine hrem (List.mem_map.mpr ⟨m[i], ?_, rfl⟩)
      rw [evictFromMemory_eq]
      exact List.mem_filter.mpr ⟨List.getElem_mem _, by simpa using hkey⟩
  have hjD : (j, m[j]) ∈ D := by
    rcases List.mem_append.mp hqjS with h | h
    · exfalso
      rcases List.mem_map.mp hkept with ⟨r, hr, hr1⟩
      rw [evictFromMemory_eq] at hr
      have hrm : r ∈ m := List.mem_of_mem_filter hr
      have hrpred : r.1 ∉ evictKeysOf m limit := by
        have := List.of_mem_filter hr
        simpa using this
      have hinj := List.inj_on_of_nodup_map (f := (Prod.fst : String × MemEntry → String))
        (l := m) hnd
      have hrj : r = m[j] := hinj hrm (List.getElem_mem _) hr1
      rw [hrj] at hrpred
      exact hrpred ((mem_evictKeys_iff m limit hnd _ hqj).mpr h)
    · exact h
  have hpair := sortedEnum_sorted m
  rw [← hsplit] at hpair
  have hrel : evictLe (i, m[i]) (j, m[j]) :=
    (List.pairwise_append.mp hpair).2.2 _ hiT _ hjD
  rcases hrel with h | ⟨heq, hle⟩
  · exact Or.inl h
  · refine Or.inr ⟨heq, ?_⟩
    have hne : i ≠ j := by
      intro hij
      subst hij
      exact hdisj hiT hjD
    omega

/-- C4 (amended): eviction is triggered by `set` exactly when the memory
tier holds at least its effective entry-count limit, before the new entry
is inserted — where the constructor coerces a configured limit of zero (or
any falsy value) to the default 100, so the effective limit is always at
least one and the configured-zero case never takes effect.  When triggered
(with duplicate-free keys), eviction removes exactly
`max(1, floor(limit * 0.1))` entries, choosing those lowest in the
(`lastAccessedAt * priorityWeight`, insertion position) order: a removed
entry always has a strictly smaller score than any survivor, or an equal
score and an earlier insertion position. -/
theorem eviction_trigger_count_selection (st : HCState) (k : String)
    (v ttl prio now : Nat) (m : List (String × MemEntry)) (limit : Nat)
    (hL : 1 ≤ limit) (hlen : limit ≤ m.length) (hnd : (m.map Prod.fst).Nodup)
    (i j : Nat) (hi : i < m.length) (hj : j < m.length) :
    ((hybridInit none (some 0) false).memoryLimit = 100) ∧
    (∀ n, n ≠ 0 → ∀ dt rc, (hybridInit dt (some n) rc).memoryLimit = n) ∧
    (st.memoryCache.length < st.memoryLimit →
      (setToMemory st k v ttl prio now).memoryCache =
        mapSet st.memoryCache k ⟨v, now + ttl, now, prio⟩) ∧
    (st.memoryCache.length ≥ st.memoryLimit →
      (setToMemory st k v ttl prio now).memoryCache =
        mapSet (evictFromMemory st.memoryCache st.memoryLimit) k
          ⟨v, now + ttl, now, prio⟩) ∧
    ((evictFromMemory m limit).length = m.length - evictCount limit) ∧
    (m[i].1 ∉ (evictFromMemory m limit).map Prod.fst →
      m[j].1 ∈ (evictFromMemory m limit).map Prod.fst →
      score m[i].2 < score m[j].2 ∨ (score m[i].2 = score m[j].2 ∧ i < j)) := by
  refine ⟨rfl, ?_, ?_, ?_, evict_length m limit hL hlen hnd,
    evict_selection m limit hnd i j hi hj⟩
  · intro n hn dt rc
    cases n with
    | zero => exact absurd rfl hn
    | succ nn => rfl
  · intro h
    unfold setToMemory
    rw [if_neg (by omega)]
  · intro h
    unfold setToMemory
    rw [if_pos h]

/-- Witness for C4 at a concrete cache: three entries with scores 10, 5, 7
under limit 2 evict exactly one entry (`max(1, floor(2 * 0.1)) = 1`), the
lowest-scoring one; the removed entry at position 1 scores below the kept
entry at position 0. -/
theorem eviction_trigger_count_selection_witness :
    ((hybridInit none (some 0) false).memoryLimit = 100) ∧
    ((hybridInit none (some 7) false).memoryLimit = 7) ∧
    ((setToMemory (hybridInit none (some 2) false) "k" 5 100 1 0).memoryCache =
      mapSet [] "k" ⟨5, 0 + 100, 0, 1⟩) ∧
    ((evictFromMemory
        [("a", ⟨1, 900, 10, 1⟩), ("b", ⟨2, 900, 5, 1⟩), ("c", ⟨3, 900, 7, 1⟩)] 2).length =
      3 - evictCount 2) ∧
    (score (⟨2, 900, 5, 1⟩ : MemEntry) < score (⟨1, 900, 10, 1⟩ : MemEntry) ∨
      (score (⟨2, 900, 5, 1⟩ : MemEntry) = score (⟨1, 900, 10, 1⟩ : MemEntry) ∧ 1 < 0)) := by
  have h := eviction_trigger_count_selection (hybridInit none (some 2) false) "k" 5 100 1 0
    [("a", ⟨1, 900, 10, 1⟩), ("b", ⟨2, 900, 5, 1⟩), ("c", ⟨3, 900, 7, 1⟩)] 2
    (by decide) (by decide) (by decide) 1 0 (by decide) (by decide)
  exact ⟨h.1, h.2.1 7 (by decide) none false, h.2.2.1 (by decide), h.2.2.2.2.1,
    h.2.2.2.2.2 (by decide) (by decide)⟩

/-- Counterexample to C4 as stated: with a configured entry-count limit of
zero the constructor substitutes the default 100 (`options.memoryLimit ||
100`), so on an empty tier — which holds at least zero entries — a `set`
triggers no eviction at all and simply inserts the entry, where the claim
demands an eviction removing exactly one entry before the insert. -/
theorem eviction_limitZero_counterexample :
    (hybridInit none (some 0) false).memoryLimit = 100 ∧
    setTriggersEviction (hybridInit none (some 0) false) = false ∧
    (0 : Nat) ≥ 0 ∧
    (setToMemory (hybridInit none (some 0) false) "k" 1 1000 1 0).memoryCache.length = 1 := by
  exact ⟨rfl, rfl, Nat.le_refl 0, rfl⟩
